import Mathlib

/-!
Verification of the INLL seat-sniper scripts: a shallow embedding of
`availability-check.py` and `action-watch.py` (HTML tables arrive as data,
the HTTP and process layers are abstracted to their observable results),
together with theorems settling the specified properties.
-/

set_option maxRecDepth 4000

namespace INLL

/-- One scheduled course offering, mirroring the `Session` dataclass. -/
structure Session where
  location : String
  schedule : String
  hours : String
  days : String
  start_date : String
  end_date : String
  fee : String
  reference : String
  availability : String
  action_text : String
deriving DecidableEq

/-- Python `needle in hay` substring test on strings. -/
def contains_sub (hay needle : String) : Bool :=
  decide (needle.toList <:+: hay.toList)

/-- Python `str.lower()` (ASCII model, matching `Char.toLower`). -/
def str_lower (s : String) : String :=
  String.mk (s.toList.map Char.toLower)

/-- The fixed keyword set scanned by `classify_availability`. -/
def AVAILABILITY_KEYWORDS : List String :=
  ["full", "sold out", "no places", "closed", "unavailable"]

/-- `classify_availability(*texts)`: lowercase the space-joined fragments and
return "unavailable" when any keyword occurs as a substring. -/
def classify_availability (texts : List String) : String :=
  let t := str_lower (String.intercalate (" ") texts)
  if AVAILABILITY_KEYWORDS.any (fun k => contains_sub t k) then "unavailable"
  else "available"

/-- C4: `classify_availability` lowercases the joined fragments and returns
"unavailable" iff one of the five keywords occurs as a substring, and
"available" otherwise; in particular "SOLD OUT" classifies as "unavailable",
"Book now" as "available", and the empty string as "available". -/
theorem classify_availability_keyword_spec (texts : List String) :
    (classify_availability texts = "unavailable" ↔
      ∃ k ∈ AVAILABILITY_KEYWORDS,
        k.toList <:+: (str_lower (String.intercalate (" ") texts)).toList) ∧
    (classify_availability texts = "available" ↔
      ¬ ∃ k ∈ AVAILABILITY_KEYWORDS,
        k.toList <:+: (str_lower (String.intercalate (" ") texts)).toList) ∧
    classify_availability [("SOLD OUT")] = "unavailable" ∧
    classify_availability [("Book now")] = "available" ∧
    classify_availability [("")] = "available" := by
  refine ⟨?_, ?_, by decide, by decide, by decide⟩ <;>
  · by_cases h : ∃ k ∈ AVAILABILITY_KEYWORDS,
      k.toList <:+: (str_lower (String.intercalate (" ") texts)).toList <;>
    simp [classify_availability, contains_sub, List.any_eq_true, h]

/-- A candidate table as produced by `extract_tables`: the header cell texts
and the data rows, each row being (cell texts, joined action text). -/
abbrev TableT := List String × List (List String × String)

/-- The lowercased, space-joined header text that `pick_session_table` scores. -/
def header_text (headers : List String) : String :=
  String.intercalate (" ") (headers.map str_lower)

/-- The score `pick_session_table` assigns to one (headers, rows) candidate. -/
def table_score (t : TableT) : Nat :=
  let ht := header_text t.1
  (if contains_sub ht ("location") then 2 else 0) +
  (if contains_sub ht ("schedule") then 2 else 0) +
  (if contains_sub ht ("start") && contains_sub ht ("date") then 2 else 0) +
  (if contains_sub ht ("reference") then 2 else 0) +
  (if 3 ≤ t.2.length then 1 else 0)

/-- The selection loop of `pick_session_table`: the accumulator carries the
`best` table and `best_score`, updated only on a strictly greater score. -/
def pick_go : List TableT → Option TableT × Nat → Option TableT × Nat
  | [], acc => acc
  | t :: ts, (b, s) =>
    if s < table_score t then pick_go ts (some t, table_score t)
    else pick_go ts (b, s)

/-- `pick_session_table(tables)`: the best-scoring table, or none. -/
def pick_session_table (tables : List TableT) : Option TableT :=
  (pick_go tables (none, 0)).1

/-- Which of the four scored keyword conditions a header list satisfies. -/
structure KwSet where
  loc : Bool
  sched : Bool
  sdate : Bool
  ref : Bool
deriving DecidableEq, Fintype

/-- The keyword conditions matched by a header list. -/
def matched_keywords (headers : List String) : KwSet :=
  let ht := header_text headers
  ⟨contains_sub ht ("location"), contains_sub ht ("schedule"),
   contains_sub ht ("start") && contains_sub ht ("date"),
   contains_sub ht ("reference")⟩

/-- How many keyword conditions are matched. -/
def kw_count (k : KwSet) : Nat :=
  (if k.loc then 1 else 0) + (if k.sched then 1 else 0) +
  (if k.sdate then 1 else 0) + (if k.ref then 1 else 0)

/-- `kw_subset b a`: every keyword matched by `b` is matched by `a`. -/
def kw_subset (b a : KwSet) : Bool :=
  (!b.loc || a.loc) && (!b.sched || a.sched) &&
  (!b.sdate || a.sdate) && (!b.ref || a.ref)

/-- The highest score among the candidates (0 when there are none). -/
def max_score (tables : List TableT) : Nat :=
  tables.foldr (fun t m => max (table_score t) m) 0

/-- Modelled from the spec: score each candidate as 2 per matched keyword
condition plus 1 when it has at least 3 data rows. -/
def table_score_spec (t : TableT) : Nat :=
  2 * kw_count (matched_keywords t.1) + (if 3 ≤ t.2.length then 1 else 0)

/-- Modelled from the spec: select the single highest-scoring table, ties
keeping the first encountered, and none when all scores are zero. -/
def pick_session_table_spec (tables : List TableT) : Option TableT :=
  if max_score tables = 0 then none
  else tables.find? (fun t => table_score_spec t == max_score tables)

lemma table_score_decomp (t : TableT) : table_score t = table_score_spec t := by
  simp only [table_score, table_score_spec, matched_keywords, kw_count]
  split_ifs <;> omega

lemma kw_count_lt_of_strict_subset (b a : KwSet)
    (hsub : kw_subset b a = true) (hne : b ≠ a) : kw_count b < kw_count a := by
  revert hsub hne
  revert a b
  decide

lemma mem_le_max_score (tables : List TableT) (t : TableT) (ht : t ∈ tables) :
    table_score t ≤ max_score tables := by
  induction tables with
  | nil => cases ht
  | cons x xs ih =>
    rcases List.mem_cons.1 ht with h | h
    · subst h; simp [max_score]
    · have := ih h
      simp only [max_score, List.foldr_cons] at *
      omega

lemma pick_go_snd (ts : List TableT) (b : Option TableT) (s : Nat) :
    (pick_go ts (b, s)).2 = max s (max_score ts) := by
  induction ts generalizing b s with
  | nil => simp [pick_go, max_score]
  | cons t ts ih =>
    simp only [pick_go, max_score, List.foldr_cons]
    split
    · rw [ih]
      simp only [max_score]
      omega
    · rw [ih]
      simp only [max_score]
      omega

lemma pick_go_keep (ts : List TableT) (b : Option TableT) (s : Nat)
    (h : ∀ x ∈ ts, table_score x ≤ s) : pick_go ts (b, s) = (b, s) := by
  induction ts with
  | nil => simp [pick_go]
  | cons t ts ih =>
    have h1 : table_score t ≤ s := h t (List.mem_cons_self t ts)
    simp only [pick_go]
    rw [if_neg (by omega)]
    exact ih (fun x hx => h x (List.mem_cons_of_mem t hx))

lemma pick_go_find (ts : List TableT) (b : Option TableT) (s : Nat)
    (h : s < max_score ts) :
    (pick_go ts (b, s)).1 = ts.find? (fun t => table_score t == max_score ts) := by
  induction ts generalizing b s with
  | nil => simp [max_score] at h
  | cons t ts ih =>
    have hmax : max_score (t :: ts) = max (table_score t) (max_score ts) := by
      simp [max_score]
    simp only [pick_go]
    split
    · rename_i hlt
      by_cases h2 : max_score ts ≤ table_score t
      · have hms : max_score (t :: ts) = table_score t := by omega
        rw [pick_go_keep ts (some t) (table_score t)
          (fun x hx => le_trans (mem_le_max_score ts x hx) h2)]
        rw [List.find?_cons, hms]
        simp
      · have hms : max_score (t :: ts) = max_score ts := by omega
        rw [hms] at *
        rw [ih (some t) (table_score t) (by omega)]
        rw [List.find?_cons]
        have : (table_score t == max_score ts) = false := by
          simp; omega
        rw [this]
    · rename_i hge
      have hts : s < max_score ts := by omega
      have hms : max_score (t :: ts) = max_score ts := by omega
      rw [hms] at *
      rw [ih b s hts]
      rw [List.find?_cons]
      have : (table_score t == max_score ts) = false := by
        simp; omega
      rw [this]

/-- C3: the table selector agrees everywhere with its specification: score
each candidate (+2 per matched keyword condition, +1 for at least 3 rows),
return the highest-scoring table with ties kept by the earliest candidate,
and return none exactly when every candidate scores zero. -/
theorem pick_session_table_eq_spec (tables : List TableT) :
    pick_session_table tables = pick_session_table_spec tables := by
  by_cases h : max_score tables = 0
  · have : ∀ x ∈ tables, table_score x ≤ 0 := by
      intro x hx
      have := mem_le_max_score tables x hx
      omega
    simp [pick_session_table, pick_session_table_spec, h,
      pick_go_keep tables none 0 this]
  · have h0 : 0 < max_score tables := Nat.pos_of_ne_zero h
    simp only [pick_session_table, pick_session_table_spec, if_neg h]
    rw [pick_go_find tables none 0 h0]
    congr 1
    funext t
    rw [table_score_decomp]

/-- C2 (counterexample): with A = (["Location"], []) and B = ([], []) the
matched-keyword set of A is a strict superset of that of B, both are
candidates, and the selector does select A — so "never selects A over B"
fails as stated. -/
theorem pick_superset_counterexample :
    kw_subset (matched_keywords []) (matched_keywords [("Location")]) = true ∧
    matched_keywords [] ≠ matched_keywords [("Location")] ∧
    (([("Location")], []) : TableT) ∈
      [(([("Location")], []) : TableT), (([], []) : TableT)] ∧
    (([], []) : TableT) ∈
      [(([("Location")], []) : TableT), (([], []) : TableT)] ∧
    pick_session_table [(([("Location")], []) : TableT), (([], []) : TableT)] =
      some (([("Location")], [])) := by
  decide

/-- C2 (amended): when the matched-keyword set of B is a strict subset of
that of a candidate A, the selector never returns B: a strict keyword
advantage (worth at least 2 points) cannot be overcome by the 1-point
row bonus. -/
theorem pick_never_prefers_kw_subset (tables : List TableT) (A B : TableT)
    (hA : A ∈ tables)
    (hsub : kw_subset (matched_keywords B.1) (matched_keywords A.1) = true)
    (hne : matched_keywords B.1 ≠ matched_keywords A.1) :
    pick_session_table tables ≠ some B := by
  intro hpick
  have hcnt := kw_count_lt_of_strict_subset _ _ hsub hne
  have hBA : table_score B < table_score A := by
    rw [table_score_decomp A, table_score_decomp B]
    simp only [table_score_spec]
    have h3 : (if 3 ≤ B.2.length then 1 else 0) ≤ 1 := by split <;> omega
    omega
  by_cases h : max_score tables = 0
  · have : ∀ x ∈ tables, table_score x ≤ 0 := by
      intro x hx
      have := mem_le_max_score tables x hx
      omega
    rw [pick_session_table, pick_go_keep tables none 0 this] at hpick
    simp at hpick
  · have h0 : 0 < max_score tables := Nat.pos_of_ne_zero h
    rw [pick_session_table, pick_go_find tables none 0 h0] at hpick
    have hBscore := List.find?_some hpick
    have hB : table_score B = max_score tables := by
      simpa using hBscore
    have hAle := mem_le_max_score tables A hA
    omega

/-- C2 (witness). -/
theorem pick_never_prefers_kw_subset_witness :
    pick_session_table [(([("Location")], []) : TableT), (([], []) : TableT)] ≠
      some (([], []) : TableT) :=
  pick_never_prefers_kw_subset
    [(([("Location")], []) : TableT), (([], []) : TableT)]
    (([("Location")], []) : TableT) (([], []) : TableT)
    (by decide) (by decide) (by decide)

/-- C10: the keyword tests run against the space-joined, lowercased
concatenation of all header cells, not individual cells: "Start" and "Date"
in separate cells still earn the start+date bonus (while either cell alone
scores 0), and a cell "Cross-reference" earns the reference bonus; such
tables are selected over nothing rather than scoring zero. -/
theorem header_matching_is_joined_text :
    header_text [("Start"), ("Date")] = "start date" ∧
    table_score ([("Start"), ("Date")], []) = 2 ∧
    table_score ([("Start")], []) = 0 ∧
    table_score ([("Date")], []) = 0 ∧
    table_score ([("Cross-reference")], []) = 2 ∧
    pick_session_table [(([("Start"), ("Date")], []) : TableT)] =
      some (([("Start"), ("Date")], [])) ∧
    pick_session_table [(([("Cross-reference")], []) : TableT)] =
      some (([("Cross-reference")], [])) := by
  decide

/-- `idx_of(*names)` inside `build_sessions_from_table`: the index in the
lowered headers of the first listed name that is present. -/
def idx_of (headers_l : List String) : List String → Option Nat
  | [] => none
  | n :: rest =>
    if headers_l.contains n then some (headers_l.indexOf n)
    else idx_of headers_l rest

/-- `safe_get(idx)` inside `build_sessions_from_table`: the cell at the
resolved index, or "" when the index is missing or out of range. -/
def safe_get (cells : List String) : Option Nat → String
  | none => ""
  | some i => if h : i < cells.length then cells.get ⟨i, h⟩ else ""

/-- `build_sessions_from_table(headers, rows)`: one `Session` per data row. -/
def build_sessions_from_table (headers : List String)
    (rows : List (List String × String)) : List Session :=
  let headers_l := headers.map str_lower
  let idx_location := idx_of headers_l [("location")]
  let idx_schedule := idx_of headers_l [("schedule")]
  let idx_hours := idx_of headers_l [("hours")]
  let idx_days := idx_of headers_l [("days")]
  let idx_start_date := idx_of headers_l [("start date"), ("start date ")]
  let idx_end_date := idx_of headers_l [("end date"), ("end date ")]
  let idx_fee := idx_of headers_l [("fee")]
  let idx_reference := idx_of headers_l [("reference")]
  rows.map (fun row =>
    let cells := row.1
    let action_text := row.2
    let row_text := String.intercalate (" ") cells
    { location := safe_get cells idx_location,
      schedule := safe_get cells idx_schedule,
      hours := safe_get cells idx_hours,
      days := safe_get cells idx_days,
      start_date := safe_get cells idx_start_date,
      end_date := safe_get cells idx_end_date,
      fee := safe_get cells idx_fee,
      reference := safe_get cells idx_reference,
      availability := classify_availability [action_text, row_text],
      action_text := action_text })

/-- C7: the row-to-session mapper is total, emits exactly one `Session` per
data row in row order, resolves every field through `safe_get`/`idx_of`
(so absent column names and out-of-range indices give ""), and classifies
each row from its action text together with all cell text. -/
theorem build_sessions_per_row_spec (headers : List String)
    (rows : List (List String × String)) :
    (build_sessions_from_table headers rows).length = rows.length ∧
    (∀ i (hi : i < rows.length)
        (hi2 : i < (build_sessions_from_table headers rows).length),
      (build_sessions_from_table headers rows).get ⟨i, hi2⟩ =
        { location := safe_get (rows.get ⟨i, hi⟩).1
            (idx_of (headers.map str_lower) [("location")]),
          schedule := safe_get (rows.get ⟨i, hi⟩).1
            (idx_of (headers.map str_lower) [("schedule")]),
          hours := safe_get (rows.get ⟨i, hi⟩).1
            (idx_of (headers.map str_lower) [("hours")]),
          days := safe_get (rows.get ⟨i, hi⟩).1
            (idx_of (headers.map str_lower) [("days")]),
          start_date := safe_get (rows.get ⟨i, hi⟩).1
            (idx_of (headers.map str_lower) [("start date"), ("start date ")]),
          end_date := safe_get (rows.get ⟨i, hi⟩).1
            (idx_of (headers.map str_lower) [("end date"), ("end date ")]),
          fee := safe_get (rows.get ⟨i, hi⟩).1
            (idx_of (headers.map str_lower) [("fee")]),
          reference := safe_get (rows.get ⟨i, hi⟩).1
            (idx_of (headers.map str_lower) [("reference")]),
          availability := classify_availability
            [(rows.get ⟨i, hi⟩).2, String.intercalate (" ") (rows.get ⟨i, hi⟩).1],
          action_text := (rows.get ⟨i, hi⟩).2 }) ∧
    (∀ (cells : List String) (idx : Option Nat),
      (idx = none ∨ ∃ j, idx = some j ∧ cells.length ≤ j) →
        safe_get cells idx = "") ∧
    (∀ name, (headers.map str_lower).contains name = false →
      idx_of (headers.map str_lower) [name] = none) := by
  refine ⟨by simp [build_sessions_from_table], ?_, ?_, ?_⟩
  · intro i hi hi2
    simp [build_sessions_from_table, List.get_eq_getElem, List.getElem_map]
  · rintro cells idx (rfl | ⟨j, rfl, hj⟩)
    · rfl
    · simp only [safe_get]
      rw [dif_neg (by omega)]
  · intro name h
    simp at h
    simpa [idx_of] using h

/-- C7 (witness): the spec scenario row. -/
theorem build_sessions_per_row_spec_witness :
    (build_sessions_from_table
        [("Location"), ("Schedule"), ("Start Date"), ("End Date"), ("Fee"), ("Reference")]
        [([("INLL Belval"), ("18:00-20:00"), ("2024-09-01 00:00:00"),
           ("2024-12-01 00:00:00"), ("450"), ("FR0074-7681")], ("Book"))]).length = 1 ∧
    (build_sessions_from_table
        [("Location"), ("Schedule"), ("Start Date"), ("End Date"), ("Fee"), ("Reference")]
        [([("INLL Belval"), ("18:00-20:00"), ("2024-09-01 00:00:00"),
           ("2024-12-01 00:00:00"), ("450"), ("FR0074-7681")], ("Book"))]).get ⟨0, by decide⟩ =
      { location := ("INLL Belval"), schedule := ("18:00-20:00"), hours := (""),
        days := (""), start_date := ("2024-09-01 00:00:00"),
        end_date := ("2024-12-01 00:00:00"), fee := ("450"),
        reference := ("FR0074-7681"), availability := ("available"),
        action_text := ("Book") } := by
  have h := build_sessions_per_row_spec
    [("Location"), ("Schedule"), ("Start Date"), ("End Date"), ("Fee"), ("Reference")]
    [([("INLL Belval"), ("18:00-20:00"), ("2024-09-01 00:00:00"),
       ("2024-12-01 00:00:00"), ("450"), ("FR0074-7681")], ("Book"))]
  refine ⟨h.1, ?_⟩
  rw [h.2.1 0 (by decide) (by decide)]
  decide

/-- Python regex class `\s` (ASCII model). -/
def is_space_char (c : Char) : Bool :=
  c = ' ' || c = '\t' || c = '\n' || c = '\r' || c = '\x0b' || c = '\x0c'

/-- Python regex class `\w` (ASCII model). -/
def is_word_char (c : Char) : Bool := c.isAlphanum || c = '_'

/-- Regex class `[A-Za-z-]` used for the day token. -/
def is_day_char (c : Char) : Bool := c.isAlpha || c = '-'

/-- Match an exact literal prefix, returning the rest. -/
def take_lit : List Char → List Char → Option (List Char)
  | [], s => some s
  | _ :: _, [] => none
  | c :: cs, d :: s => if d = c then take_lit cs s else none

/-- Regex `p+` (greedy; the following pattern pieces never overlap `p`,
so greedy matching without backtracking is faithful here). -/
def take_plus (p : Char → Bool) (s : List Char) : Option (List Char × List Char) :=
  let tk := s.takeWhile p
  if tk.isEmpty then none else some (tk, s.dropWhile p)

/-- Regex `p{n}`: exactly `n` characters satisfying `p`. -/
def take_count (p : Char → Bool) : Nat → List Char → Option (List Char × List Char)
  | 0, s => some ([], s)
  | _ + 1, [] => none
  | n + 1, c :: s =>
    if p c then
      match take_count p n s with
      | some (tk, rest) => some (c :: tk, rest)
      | none => none
    else none

/-- `HH:MM` — two digits, a colon, two digits. -/
def take_hhmm (s : List Char) : Option (List Char × List Char) := do
  let (a, s) ← take_count Char.isDigit 2 s
  let s ← take_lit [(':')] s
  let (b, s) ← take_count Char.isDigit 2 s
  some (a ++ (':') :: b, s)

/-- The schedule group `HH:MM-HH:MM`. -/
def take_schedule (s : List Char) : Option (List Char × List Char) := do
  let (a, s) ← take_hhmm s
  let s ← take_lit [('-')] s
  let (b, s) ← take_hhmm s
  some (a ++ ('-') :: b, s)

/-- The date part `YYYY-MM-DD`. -/
def take_date (s : List Char) : Option (List Char × List Char) := do
  let (d1, s) ← take_count Char.isDigit 4 s
  let s ← take_lit [('-')] s
  let (d2, s) ← take_count Char.isDigit 2 s
  let s ← take_lit [('-')] s
  let (d3, s) ← take_count Char.isDigit 2 s
  some (d1 ++ ('-') :: d2 ++ ('-') :: d3, s)

/-- The time part `HH:MM:SS`. -/
def take_hms (s : List Char) : Option (List Char × List Char) := do
  let (a, s) ← take_hhmm s
  let s ← take_lit [(':')] s
  let (b, s) ← take_count Char.isDigit 2 s
  some (a ++ (':') :: b, s)

/-- One datetime group `YYYY-MM-DD\s+HH:MM:SS` (the matched whitespace run
is captured verbatim inside the group). -/
def take_datetime (s : List Char) : Option (List Char × List Char) := do
  let (d, s) ← take_date s
  let (sp, s) ← take_plus is_space_char s
  let (t, s) ← take_hms s
  some (d ++ sp ++ t, s)

/-- The fee group `\d+(\.\d+)?`; a dot not followed by a digit is left for
the next pattern piece, exactly as the optional regex group does. -/
def take_fee (s : List Char) : Option (List Char × List Char) := do
  let (d, s) ← take_plus Char.isDigit s
  match s with
  | '.' :: rest =>
    match take_plus Char.isDigit rest with
    | some (d2, s2) => some (d ++ ('.') :: d2, s2)
    | none => some (d, s)
  | _ => some (d, s)

/-- The reference group `FR\d\x7b4\x7d-\d+`. -/
def take_reference (s : List Char) : Option (List Char × List Char) := do
  let s ← take_lit [('F'), ('R')] s
  let (d1, s) ← take_count Char.isDigit 4 s
  let s ← take_lit [('-')] s
  let (d2, s) ← take_plus Char.isDigit s
  some (('F') :: ('R') :: d1 ++ ('-') :: d2, s)

/-- The captured groups of one fallback-pattern match. -/
structure FallbackM where
  location : List Char
  schedule : List Char
  days : List Char
  mstart : List Char
  mend : List Char
  fee : List Char
  reference : List Char
deriving DecidableEq

/-- Skip the `\s+` separator between groups, then run the next piece. -/
def after_space (f : List Char → Option (List Char × List Char))
    (s : List Char) : Option (List Char × List Char) := do
  let (_, s) ← take_plus is_space_char s
  f s

/-- The location group `INLL\s+\w+` (whitespace captured verbatim). -/
def take_location (s : List Char) : Option (List Char × List Char) := do
  let s ← take_lit [('I'), ('N'), ('L'), ('L')] s
  let (sp, s) ← take_plus is_space_char s
  let (w, s) ← take_plus is_word_char s
  some (('I') :: ('N') :: ('L') :: ('L') :: sp ++ w, s)

/-- One attempt of the whole fallback pattern at the current position. -/
def match_fallback_at (s : List Char) : Option (FallbackM × List Char) := do
  let (lc, s) ← take_location s
  let (sch, s) ← after_space take_schedule s
  let (dy, s) ← after_space (take_plus is_day_char) s
  let (st, s) ← after_space take_datetime s
  let (en, s) ← after_space take_datetime s
  let (fe, s) ← after_space take_fee s
  let (rf, s) ← after_space take_reference s
  some (⟨lc, sch, dy, st, en, fe, rf⟩, s)

/-- `re.finditer`: scan left to right, emitting non-overlapping matches;
the fuel is instantiated with the text length, which the scan never
exhausts since every step consumes at least one character. -/
def scan_fallback : Nat → List Char → List FallbackM
  | 0, _ => []
  | _ + 1, [] => []
  | fuel + 1, s =>
    match match_fallback_at s with
    | some (m, rest) => m :: scan_fallback fuel rest
    | none =>
      match s with
      | [] => []
      | _ :: cs => scan_fallback fuel cs

/-- `fallback_extract_sessions(text)`: one `Session` per pattern match, with
an empty `hours` field and availability classified from an empty string. -/
def fallback_extract_sessions (text : String) : List Session :=
  (scan_fallback text.length text.toList).map (fun m =>
    { location := String.mk m.location,
      schedule := String.mk m.schedule,
      hours := (""),
      days := String.mk m.days,
      start_date := String.mk m.mstart,
      end_date := String.mk m.mend,
      fee := String.mk m.fee,
      reference := String.mk m.reference,
      availability := classify_availability [("")],
      action_text := ("") })

/-- C5: every session produced by the fallback extractor, on any input text,
has an empty `hours` field and availability "available": classification is
invoked on the empty action text only, never on the surrounding text. -/
theorem fallback_sessions_always_available (text : String) (s : Session)
    (hs : s ∈ fallback_extract_sessions text) :
    s.hours = "" ∧ s.availability = "available" ∧ s.action_text = "" := by
  rcases List.mem_map.1 hs with ⟨m, _, rfl⟩
  refine ⟨rfl, ?_, rfl⟩
  show classify_availability [("")] = "available"
  decide

/-- The demonstration text: a fallback row surrounded by "full" markers. -/
def fallback_demo_text : String :=
  "Sessions full INLL Belval 18:00-20:00 Mon-Fri 2024-09-01 00:00:00 2024-12-01 00:00:00 450 FR0074-7681 full"

/-- The session the fallback extractor produces from the demonstration text. -/
def fallback_demo_session : Session :=
  ⟨("INLL Belval"), ("18:00-20:00"), (""), ("Mon-Fri"), ("2024-09-01 00:00:00"),
   ("2024-12-01 00:00:00"), ("450"), ("FR0074-7681"), ("available"), ("")⟩

/-- C5 (witness): on the demonstration text — which says "full" on both
sides of the matched row — the extractor produces the demo session, and the
theorem yields its empty hours and "available" status. -/
theorem fallback_sessions_always_available_witness :
    fallback_demo_session ∈ fallback_extract_sessions fallback_demo_text ∧
    fallback_demo_session.hours = "" ∧
    fallback_demo_session.availability = "available" ∧
    fallback_demo_session.action_text = "" := by
  have hmem : fallback_demo_session ∈ fallback_extract_sessions fallback_demo_text := by
    decide
  exact ⟨hmem, fallback_sessions_always_available fallback_demo_text fallback_demo_session hmem⟩

/-- The table path of `check_once`: the sessions built from the selected
table, or none when no table was selected. -/
def table_sessions (tables : List TableT) : List Session :=
  match pick_session_table tables with
  | some (headers, rows) => build_sessions_from_table headers rows
  | none => []

/-- The extraction part of `check_once`, before reference filtering: the
table path, with the fallback regex used when it yielded no sessions. -/
def extract_sessions (tables : List TableT) (text : String) : List Session :=
  let sessions := table_sessions tables
  if sessions.isEmpty then fallback_extract_sessions text else sessions

lemma build_sessions_length (headers : List String)
    (rows : List (List String × String)) :
    (build_sessions_from_table headers rows).length = rows.length := by
  simp [build_sessions_from_table]

/-- C6: one check invokes the fallback extractor exactly when the table path
yields zero sessions — no table selected, or a selected table without data
rows; when the selected table has at least one row, the check's extraction
result is precisely the table-derived session list. -/
theorem extract_sessions_fallback_iff (tables : List TableT) (text : String) :
    (pick_session_table tables = none →
      extract_sessions tables text = fallback_extract_sessions text) ∧
    (∀ headers rows, pick_session_table tables = some (headers, rows) →
      rows = [] →
      extract_sessions tables text = fallback_extract_sessions text) ∧
    (∀ headers rows, pick_session_table tables = some (headers, rows) →
      rows ≠ [] →
      extract_sessions tables text = build_sessions_from_table headers rows ∧
      extract_sessions tables text ≠ []) := by
  refine ⟨?_, ?_, ?_⟩
  · intro h
    simp [extract_sessions, table_sessions, h]
  · intro headers rows h hrows
    subst hrows
    simp [extract_sessions, table_sessions, h, build_sessions_from_table]
  · intro headers rows h hrows
    have hlen := build_sessions_length headers rows
    have hne : (build_sessions_from_table headers rows).isEmpty = false := by
      rcases rows with _ | ⟨r, rs⟩
      · exact absurd rfl hrows
      · rcases hbuild : build_sessions_from_table headers (r :: rs) with _ | ⟨x, xs⟩
        · rw [hbuild] at hlen; simp at hlen
        · simp
    constructor
    · simp [extract_sessions, table_sessions, h, hne]
    · intro hcontra
      simp [extract_sessions, table_sessions, h, hne] at hcontra
      have hz : rows.length = 0 := by rw [← hlen, hcontra]; rfl
      exact hrows (List.length_eq_zero.1 hz)

/-- The spec scenario table headers. -/
def demo_headers : List String :=
  [("Location"), ("Schedule"), ("Start Date"), ("End Date"), ("Fee"), ("Reference")]

/-- The spec scenario data rows. -/
def demo_rows : List (List String × String) :=
  [([("INLL Belval"), ("18:00-20:00"), ("2024-09-01 00:00:00"),
     ("2024-12-01 00:00:00"), ("450"), ("FR0074-7681")], ("Book"))]

/-- C6 (witness): with the spec scenario table selected and non-empty, the
check returns exactly the table-derived sessions and skips the fallback. -/
theorem extract_sessions_fallback_iff_witness :
    extract_sessions [(demo_headers, demo_rows)] ("") =
      build_sessions_from_table demo_headers demo_rows ∧
    extract_sessions [(demo_headers, demo_rows)] ("") ≠ [] :=
  (extract_sessions_fallback_iff [(demo_headers, demo_rows)] ("")).2.2
    demo_headers demo_rows (by decide) (by decide)

/-- The module-level default reference set. -/
def DEFAULT_REFERENCES : List String := [("FR0074-7681"), ("FR0074-7682")]

/-- The unconditional filter at the end of `check_once`: keep only sessions
whose reference is in the default set. -/
def check_once_filter (sessions : List Session) : List Session :=
  sessions.filter (fun s => DEFAULT_REFERENCES.contains s.reference)

/-- Python `str.strip()` (ASCII whitespace model). -/
def str_strip (s : String) : String :=
  String.mk (((s.toList.dropWhile is_space_char).reverse.dropWhile is_space_char).reverse)

/-- Python `s.split(",")` on the character list. -/
def split_commas_go : List Char → List Char → List (List Char)
  | [], acc => [acc.reverse]
  | c :: cs, acc =>
    if c = ',' then acc.reverse :: split_commas_go cs []
    else split_commas_go cs (c :: acc)

/-- Python `s.split(",")`. -/
def split_on_comma (s : String) : List String :=
  (split_commas_go s.toList []).map String.mk

/-- The wanted set parsed from a `--references` value: split on commas,
strip, drop empties. -/
def parse_references (arg : String) : List String :=
  ((split_on_comma arg).map str_strip).filter (fun r => r ≠ "")

/-- The `--references` handling in `main`, applied to what `check_once`
returned: a second filter, used only when the argument is present and
truthy (non-empty). -/
def main_filter (references : Option String) (sessions : List Session) :
    List Session :=
  match references with
  | none => sessions
  | some a =>
    if a = "" then sessions
    else sessions.filter (fun s => (parse_references a).contains s.reference)

/-- The checker's complete reference filtering: the hardcoded default-set
filter inside `check_once`, then the `--references` filter from `main`. -/
def checker_filter (references : Option String) (sessions : List Session) :
    List Session :=
  main_filter references (check_once_filter sessions)

/-- Modelled from the spec: a caller-supplied `--references` value replaces
the default set — return exactly the sessions whose reference is a member
of the supplied set, preserving relative order. -/
def override_filter_spec (arg : String) (sessions : List Session) :
    List Session :=
  sessions.filter (fun s => (parse_references arg).contains s.reference)

/-- A session whose reference lies outside the default two-reference set. -/
def alien_session : Session :=
  ⟨("INLL Belval"), ("18:00-20:00"), (""), ("Mon-Fri"), ("2024-09-01 00:00:00"),
   ("2024-12-01 00:00:00"), ("450"), ("FR9999-1"), ("available"), ("Book")⟩

/-- A session whose reference is in the default set. -/
def default_session : Session :=
  ⟨("INLL Belval"), ("18:00-20:00"), (""), ("Mon-Fri"), ("2024-09-01 00:00:00"),
   ("2024-12-01 00:00:00"), ("450"), ("FR0074-7681"), ("available"), ("Book")⟩

/-- C1: the caller-supplied reference set does not override the default set.
`alien_session`'s reference "FR9999-1" is a member of the supplied set, yet
the checker's filtering drops it, because `check_once` has already filtered
by the hardcoded default set before `main` applies `--references`; the
spec's override semantics would return it. A supplied set drawn from the
default set still works. -/
theorem references_override_ignored :
    (parse_references ("FR9999-1")).contains alien_session.reference = true ∧
    checker_filter (some ("FR9999-1")) [alien_session] = [] ∧
    override_filter_spec ("FR9999-1") [alien_session] = [alien_session] ∧
    checker_filter (some ("FR0074-7681")) [default_session] = [default_session] := by
  decide

/-- Lowercase hex digit for a value below 16, as `json.dumps` emits. -/
def hex_digit (n : Nat) : Char :=
  if n < 10 then Char.ofNat (('0').toNat + n) else Char.ofNat (('a').toNat + (n - 10))

/-- The numeric value of one hex digit (either case accepted on parse). -/
def hex_val (c : Char) : Option Nat :=
  if ('0') ≤ c && c ≤ ('9') then some (c.toNat - ('0').toNat)
  else if ('a') ≤ c && c ≤ ('f') then some (c.toNat - ('a').toNat + 10)
  else if ('A') ≤ c && c ≤ ('F') then some (c.toNat - ('A').toNat + 10)
  else none

/-- The four hex digits of a `\uXXXX` escape payload. -/
def hex4 (n : Nat) : List Char :=
  [hex_digit (n / 4096 % 16), hex_digit (n / 256 % 16),
   hex_digit (n / 16 % 16), hex_digit (n % 16)]

/-- Decode four hex digits. -/
def hex4_val (h1 h2 h3 h4 : Char) : Option Nat := do
  let a ← hex_val h1
  let b ← hex_val h2
  let c ← hex_val h3
  let d ← hex_val h4
  some (a * 4096 + b * 256 + c * 16 + d)

/-- `json.dumps` escaping (default `ensure_ascii=True`) of one character:
short escapes for the two delimiters and the five named controls, `\uXXXX`
for other controls and all non-ASCII, surrogate pairs beyond the BMP. -/
def escape_char (c : Char) : List Char :=
  if c = '"' then [('\\'), ('"')]
  else if c = '\\' then [('\\'), ('\\')]
  else if c = '\x08' then [('\\'), ('b')]
  else if c = '\t' then [('\\'), ('t')]
  else if c = '\n' then [('\\'), ('n')]
  else if c = '\x0c' then [('\\'), ('f')]
  else if c = '\r' then [('\\'), ('r')]
  else if c.toNat < 32 then ('\\') :: ('u') :: hex4 c.toNat
  else if c.toNat < 127 then [c]
  else if c.toNat < 65536 then ('\\') :: ('u') :: hex4 c.toNat
  else ('\\') :: ('u') :: hex4 (55296 + (c.toNat - 65536) / 1024) ++
       ('\\') :: ('u') :: hex4 (56320 + (c.toNat - 65536) % 1024)

/-- Escape a whole string body. -/
def escape_string : List Char → List Char
  | [] => []
  | c :: cs => escape_char c ++ escape_string cs

/-- Decode a low surrogate `\uXXXX` following the high surrogate `n`,
combining the pair into one scalar value. -/
def decode_low_surrogate (n : Nat) : List Char → Option (Char × List Char)
  | b1 :: b2 :: g1 :: g2 :: g3 :: g4 :: r2 =>
    if b1 = '\\' ∧ b2 = 'u' then
      match hex4_val g1 g2 g3 g4 with
      | none => none
      | some m =>
        if 56320 ≤ m ∧ m < 57344 then
          some (Char.ofNat (65536 + (n - 55296) * 1024 + (m - 56320)), r2)
        else none
    else none
  | _ => none

/-- Decode the payload of a `\u` escape: four hex digits, with a high
surrogate demanding a following low surrogate; lone surrogates rejected. -/
def decode_unicode : List Char → Option (Char × List Char)
  | h1 :: h2 :: h3 :: h4 :: r1 =>
    match hex4_val h1 h2 h3 h4 with
    | none => none
    | some n =>
      if 55296 ≤ n ∧ n < 56320 then decode_low_surrogate n r1
      else if 56320 ≤ n ∧ n < 57344 then none
      else some (Char.ofNat n, r1)
  | _ => none

/-- Decode one escape sequence, entered after the backslash. -/
def decode_escape : List Char → Option (Char × List Char)
  | [] => none
  | e :: r =>
    if e = '"' then some (('"'), r)
    else if e = '\\' then some (('\\'), r)
    else if e = '/' then some (('/'), r)
    else if e = 'b' then some (('\x08'), r)
    else if e = 't' then some (('\t'), r)
    else if e = 'n' then some (('\n'), r)
    else if e = 'f' then some (('\x0c'), r)
    else if e = 'r' then some (('\r'), r)
    else if e = 'u' then decode_unicode r
    else none

/-- JSON string-body parser, entered after the opening quote; raw control
characters are rejected, as `json.loads` does in strict mode. The fuel
bounds the character count and is never exhausted when instantiated with
the input length plus one, since every step consumes a character. -/
def parse_string_body : Nat → List Char → Option (List Char × List Char)
  | 0, _ => none
  | _ + 1, [] => none
  | fuel + 1, c :: rest =>
    if c = '"' then some ([], rest)
    else if c = '\\' then
      match decode_escape rest with
      | none => none
      | some (d, r) => (parse_string_body fuel r).map (fun p => (d :: p.1, p.2))
    else if c.toNat < 32 then none
    else (parse_string_body fuel rest).map (fun p => (c :: p.1, p.2))

/-- A JSON string, an opening quote then the body. -/
def parse_json_string : List Char → Option (List Char × List Char)
  | [] => none
  | c :: rest => if c = '"' then parse_string_body (rest.length + 1) rest else none

/-- JSON insignificant whitespace. -/
def json_ws (c : Char) : Bool :=
  c = ' ' || c = '\t' || c = '\n' || c = '\r'

/-- Skip insignificant whitespace. -/
def skip_ws (s : List Char) : List Char := s.dropWhile json_ws

/-- Parse the members of a non-empty object of string values, after the
opening brace; the fuel bounds the member count and is never exhausted when
instantiated with the input length. -/
def parse_members : Nat → List Char → Option (List (List Char × List Char) × List Char)
  | 0, _ => none
  | fuel + 1, s =>
    match parse_json_string (skip_ws s) with
    | none => none
    | some (k, s1) =>
      match skip_ws s1 with
      | [] => none
      | c :: s3 =>
        if c = ':' then
          match parse_json_string (skip_ws s3) with
          | none => none
          | some (v, s5) =>
            match skip_ws s5 with
            | [] => none
            | d :: s7 =>
              if d = ',' then (parse_members fuel s7).map (fun p => ((k, v) :: p.1, p.2))
              else if d = '\x7d' then some ([(k, v)], s7)
              else none
        else none

/-- Parse one object of string values. -/
def parse_object (fuel : Nat) (s : List Char) :
    Option (List (List Char × List Char) × List Char) :=
  match skip_ws s with
  | [] => none
  | c :: s1 =>
    if c = '\x7b' then
      match skip_ws s1 with
      | [] => none
      | d :: s2 => if d = '\x7d' then some ([], s2) else parse_members fuel s1
    else none

/-- Parse the elements of a non-empty array of objects. -/
def parse_elements : Nat → List Char → Option (List (List (List Char × List Char)) × List Char)
  | 0, _ => none
  | fuel + 1, s =>
    match parse_object fuel s with
    | none => none
    | some (o, s1) =>
      match skip_ws s1 with
      | [] => none
      | c :: s2 =>
        if c = ',' then (parse_elements fuel s2).map (fun p => (o :: p.1, p.2))
        else if c = ']' then some ([o], s2)
        else none

/-- Parse an array of objects of string values. -/
def parse_array (fuel : Nat) (s : List Char) :
    Option (List (List (List Char × List Char)) × List Char) :=
  match skip_ws s with
  | [] => none
  | c :: s1 =>
    if c = '[' then
      match skip_ws s1 with
      | [] => none
      | d :: s2 => if d = ']' then some ([], s2) else parse_elements fuel s1
    else none

/-- `json.loads` on the checker's output shape — an array of objects with
string values — requiring only whitespace after the closing bracket. -/
def parse_sessions_json (out : String) : Option (List (List (String × String))) :=
  match parse_array (out.length + 12) out.toList with
  | some (objs, rest) =>
    if (skip_ws rest).isEmpty then
      some (objs.map (fun o => o.map (fun kv => (String.mk kv.1, String.mk kv.2))))
    else none
  | none => none

/-- Print one JSON string with quotes. -/
def print_string (s : String) : List Char :=
  ('"') :: escape_string s.toList ++ [('"')]

/-- Print one `"key": "value"` line at object indent (4 spaces). -/
def print_field (kv : String × String) : List Char :=
  (' ') :: (' ') :: (' ') :: (' ') :: print_string kv.1 ++
    (':') :: (' ') :: print_string kv.2

/-- Print object members, separated by `,\n`. -/
def print_fields : List (String × String) → List Char
  | [] => []
  | [kv] => print_field kv
  | kv :: rest => print_field kv ++ (',') :: ('\n') :: print_fields rest

/-- Print one object at array indent, `json.dumps(..., indent=2)` style. -/
def print_obj (fields : List (String × String)) : List Char :=
  if fields.isEmpty then [('\x7b'), ('\x7d')]
  else ('\x7b') :: ('\n') :: print_fields fields ++
    ('\n') :: (' ') :: (' ') :: [('\x7d')]

/-- Print array elements, separated by `,\n`, each at indent 2. -/
def print_elements : List (List (String × String)) → List Char
  | [] => []
  | [o] => (' ') :: (' ') :: print_obj o
  | o :: rest => (' ') :: (' ') :: print_obj o ++ (',') :: ('\n') :: print_elements rest

/-- Print the whole array, `json.dumps(..., indent=2)` style. -/
def print_array (objs : List (List (String × String))) : List Char :=
  if objs.isEmpty then [('['), (']')]
  else ('[') :: ('\n') :: print_elements objs ++ ('\n') :: [(']')]

/-- `dataclasses.asdict`: the ten fields of a `Session`, in declared order. -/
def asdict (s : Session) : List (String × String) :=
  [(("location"), s.location), (("schedule"), s.schedule), (("hours"), s.hours),
   (("days"), s.days), (("start_date"), s.start_date), (("end_date"), s.end_date),
   (("fee"), s.fee), (("reference"), s.reference),
   (("availability"), s.availability), (("action_text"), s.action_text)]

/-- The json output format: `json.dumps([asdict(s) for s in sessions], indent=2)`. -/
def sessions_json (sessions : List Session) : String :=
  String.mk (print_array (sessions.map asdict))

lemma hex_val_hex_digit : ∀ n < 16, hex_val (hex_digit n) = some n := by decide

lemma hex4_val_hex4 (n : Nat) (h : n < 65536) :
    hex4_val (hex_digit (n / 4096 % 16)) (hex_digit (n / 256 % 16))
      (hex_digit (n / 16 % 16)) (hex_digit (n % 16)) = some n := by
  have a1 := hex_val_hex_digit (n / 4096 % 16) (by omega)
  have a2 := hex_val_hex_digit (n / 256 % 16) (by omega)
  have a3 := hex_val_hex_digit (n / 16 % 16) (by omega)
  have a4 := hex_val_hex_digit (n % 16) (by omega)
  simp [hex4_val, a1, a2, a3, a4]
  omega

lemma escape_char_length_pos (c : Char) : 1 ≤ (escape_char c).length := by
  unfold escape_char
  repeat' split
  all_goals simp [hex4]

lemma escape_string_length (s : List Char) : s.length ≤ (escape_string s).length := by
  induction s with
  | nil => simp [escape_string]
  | cons c cs ih =>
    have := escape_char_length_pos c
    simp only [escape_string, List.length_append, List.length_cons]
    omega

lemma decode_escape_u (r : List Char) : decode_escape (('u') :: r) = decode_unicode r := by
  simp [decode_escape]

lemma decode_unicode_hex_high (n : Nat) (hn : 55296 ≤ n ∧ n < 56320) (r1 : List Char) :
    decode_unicode (hex4 n ++ r1) = decode_low_surrogate n r1 := by
  have hx := hex4_val_hex4 n (by omega)
  simp [hex4, decode_unicode, hx, hn]

lemma decode_low_surrogate_hex (n m : Nat) (hm : 56320 ≤ m ∧ m < 57344) (tail : List Char) :
    decode_low_surrogate n (('\\') :: ('u') :: hex4 m ++ tail) =
      some (Char.ofNat (65536 + (n - 55296) * 1024 + (m - 56320)), tail) := by
  have hx := hex4_val_hex4 m (by omega)
  simp [hex4, decode_low_surrogate, hx, hm]

lemma psb_backslash_decoded (f : Nat) (r r1 : List Char) (d : Char)
    (h : decode_escape r = some (d, r1)) :
    parse_string_body (f + 1) (('\\') :: r) =
      (parse_string_body f r1).map (fun p => (d :: p.1, p.2)) := by
  simp [parse_string_body, h]

lemma parse_string_body_astral (c : Char) (f : Nat) (tail out rest : List Char)
    (hbig : 65536 ≤ c.toNat ∧ c.toNat < 1114112)
    (ihf : parse_string_body f tail = some (out, rest)) :
    parse_string_body (f + 1)
      ((('\\') :: ('u') :: hex4 (55296 + (c.toNat - 65536) / 1024) ++
        ('\\') :: ('u') :: hex4 (56320 + (c.toNat - 65536) % 1024)) ++ tail) =
      some (c :: out, rest) := by
  have hs1 : 55296 ≤ 55296 + (c.toNat - 65536) / 1024 ∧
      55296 + (c.toNat - 65536) / 1024 < 56320 := by omega
  have hs2 : 56320 ≤ 56320 + (c.toNat - 65536) % 1024 ∧
      56320 + (c.toNat - 65536) % 1024 < 57344 := by omega
  have hdec : decode_escape (('u') :: (hex4 (55296 + (c.toNat - 65536) / 1024) ++
      (('\\') :: ('u') :: hex4 (56320 + (c.toNat - 65536) % 1024) ++ tail))) =
      some (c, tail) := by
    rw [decode_escape_u, decode_unicode_hex_high _ hs1, decode_low_surrogate_hex _ _ hs2]
    rw [show 65536 + (55296 + (c.toNat - 65536) / 1024 - 55296) * 1024 +
      (56320 + (c.toNat - 65536) % 1024 - 56320) = c.toNat by omega]
    rw [Char.ofNat_toNat]
  rw [show (('\\') :: ('u') :: hex4 (55296 + (c.toNat - 65536) / 1024) ++
      ('\\') :: ('u') :: hex4 (56320 + (c.toNat - 65536) % 1024)) ++ tail =
      ('\\') :: ('u') :: (hex4 (55296 + (c.toNat - 65536) / 1024) ++
      (('\\') :: ('u') :: hex4 (56320 + (c.toNat - 65536) % 1024) ++ tail)) by simp]
  rw [psb_backslash_decoded f _ tail c hdec, ihf]
  rfl

lemma parse_string_body_escape (s : List Char) : ∀ fuel rest, s.length < fuel →
    parse_string_body fuel (escape_string s ++ ('"') :: rest) = some (s, rest) := by
  induction s with
  | nil =>
    intro fuel rest hf
    cases fuel with
    | zero => omega
    | succ f => simp [escape_string, parse_string_body]
  | cons c cs ih =>
    intro fuel rest hf
    cases fuel with
    | zero => omega
    | succ f =>
      have ihf := ih f rest (by simp at hf; omega)
      show parse_string_body (f + 1)
        ((escape_char c ++ escape_string cs) ++ ('"') :: rest) = _
      rw [List.append_assoc]
      by_cases h1 : c = '"'
      · subst h1; simp [escape_char, parse_string_body, decode_escape, ihf]
      by_cases h2 : c = '\\'
      · subst h2; simp [escape_char, parse_string_body, decode_escape, ihf]
      by_cases h3 : c = '\x08'
      · subst h3; simp [escape_char, parse_string_body, decode_escape, ihf]
      by_cases h4 : c = '\t'
      · subst h4; simp [escape_char, parse_string_body, decode_escape, ihf]
      by_cases h5 : c = '\n'
      · subst h5; simp [escape_char, parse_string_body, decode_escape, ihf]
      by_cases h6 : c = '\x0c'
      · subst h6; simp [escape_char, parse_string_body, decode_escape, ihf]
      by_cases h7 : c = '\r'
      · subst h7; simp [escape_char, parse_string_body, decode_escape, ihf]
      by_cases h8 : c.toNat < 32
      · have e : escape_char c = ('\\') :: ('u') :: hex4 c.toNat := by
          simp [escape_char, h1, h2, h3, h4, h5, h6, h7, h8]
        have hx := hex4_val_hex4 c.toNat (by omega)
        have hs1 : ¬(55296 ≤ c.toNat ∧ c.toNat < 56320) := by omega
        have hs2 : ¬(56320 ≤ c.toNat ∧ c.toNat < 57344) := by omega
        rw [e]
        simp [hex4, parse_string_body, decode_escape, decode_unicode,
          hx, hs1, hs2, ihf, Char.ofNat_toNat]
      by_cases h9 : c.toNat < 127
      · have e : escape_char c = [c] := by
          simp [escape_char, h1, h2, h3, h4, h5, h6, h7, h8, h9]
        rw [e]
        simp [parse_string_body, h1, h2, h8, ihf]
      have hv0 : c.toNat < 55296 ∨ (57343 < c.toNat ∧ c.toNat < 1114112) := c.valid
      by_cases h10 : c.toNat < 65536
      · have e : escape_char c = ('\\') :: ('u') :: hex4 c.toNat := by
          simp [escape_char, h1, h2, h3, h4, h5, h6, h7, h8, h9, h10]
        have hx := hex4_val_hex4 c.toNat (by omega)
        have hs1 : ¬(55296 ≤ c.toNat ∧ c.toNat < 56320) := by
          rcases hv0 with hv | hv <;> omega
        have hs2 : ¬(56320 ≤ c.toNat ∧ c.toNat < 57344) := by
          rcases hv0 with hv | hv <;> omega
        rw [e]
        simp [hex4, parse_string_body, decode_escape, decode_unicode,
          hx, hs1, hs2, ihf, Char.ofNat_toNat]
      · have hbig : 65536 ≤ c.toNat ∧ c.toNat < 1114112 := by
          rcases hv0 with hv | hv <;> omega
        have e : escape_char c =
            ('\\') :: ('u') :: hex4 (55296 + (c.toNat - 65536) / 1024) ++
            ('\\') :: ('u') :: hex4 (56320 + (c.toNat - 65536) % 1024) := by
          simp [escape_char, h1, h2, h3, h4, h5, h6, h7, h8, h9, h10]
        rw [← List.append_assoc, e]
        exact parse_string_body_astral c f _ cs rest hbig ihf

lemma parse_json_string_print (s : String) (rest : List Char) :
    parse_json_string (print_string s ++ rest) = some (s.toList, rest) := by
  have hlen := escape_string_length s.toList
  have hshape : print_string s ++ rest =
      ('"') :: (escape_string s.toList ++ ('"') :: rest) := by
    simp [print_string]
  rw [hshape]
  simp only [parse_json_string, if_true, reduceIte]
  exact parse_string_body_escape s.toList _ rest (by
    simp only [List.length_append, List.length_cons]
    omega)

/-- Char-level image of an object, as the parser returns it. -/
def to_char_pairs (o : List (String × String)) : List (List Char × List Char) :=
  o.map (fun kv => (kv.1.toList, kv.2.toList))

lemma skip_ws_nl (l : List Char) : skip_ws (('\n') :: l) = skip_ws l := by
  simp [skip_ws, json_ws]

lemma skip_ws_sp (l : List Char) : skip_ws ((' ') :: l) = skip_ws l := by
  simp [skip_ws, json_ws]

lemma skip_ws_print_string (k : String) (X : List Char) :
    skip_ws (print_string k ++ X) = print_string k ++ X := by
  simp [print_string, skip_ws, json_ws]

lemma skip_ws_colon (l : List Char) : skip_ws ((':') :: l) = (':') :: l := by
  simp [skip_ws, json_ws]

lemma skip_ws_comma (l : List Char) : skip_ws ((',') :: l) = (',') :: l := by
  simp [skip_ws, json_ws]

lemma skip_ws_rbrace (l : List Char) : skip_ws (('\x7d') :: l) = ('\x7d') :: l := by
  simp [skip_ws, json_ws]

lemma skip_ws_lbrace (l : List Char) : skip_ws (('\x7b') :: l) = ('\x7b') :: l := by
  simp [skip_ws, json_ws]

lemma skip_ws_rbracket (l : List Char) : skip_ws ((']') :: l) = (']') :: l := by
  simp [skip_ws, json_ws]

lemma skip_ws_lbracket (l : List Char) : skip_ws (('[') :: l) = ('[') :: l := by
  simp [skip_ws, json_ws]

lemma parse_members_print (fields : List (String × String)) :
    ∀ fuel rest, fields ≠ [] → fields.length ≤ fuel →
    parse_members fuel (('\n') :: print_fields fields ++
      ('\n') :: (' ') :: (' ') :: ('\x7d') :: rest) =
      some (to_char_pairs fields, rest) := by
  induction fields with
  | nil => intro fuel rest h _; exact absurd rfl h
  | cons kv tl ih =>
    intro fuel rest _ hf
    cases fuel with
    | zero => simp at hf
    | succ f =>
      cases tl with
      | nil =>
        simp only [print_fields, print_field, List.cons_append, List.append_assoc,
          parse_members, skip_ws_nl, skip_ws_sp, skip_ws_print_string,
          parse_json_string_print, skip_ws_colon, skip_ws_rbrace, to_char_pairs,
          List.map]
        simp
      | cons kv2 tl2 =>
        have ihx := ih f rest (by simp) (by simp at hf ⊢; omega)
        simp only [List.cons_append, List.append_assoc] at ihx
        simp only [print_fields, print_field, List.cons_append, List.append_assoc,
          parse_members, skip_ws_nl, skip_ws_sp, skip_ws_print_string,
          parse_json_string_print, skip_ws_colon, skip_ws_comma, ihx,
          to_char_pairs, List.map]
        simp

lemma print_obj_head (o : List (String × String)) (X : List Char) :
    ∃ Z, print_obj o ++ X = ('\x7b') :: Z := by
  cases o with
  | nil => exact ⟨('\x7d') :: X, by simp [print_obj]⟩
  | cons kv tl =>
    refine ⟨('\n') :: (print_fields (kv :: tl) ++
      ('\n') :: (' ') :: (' ') :: ('\x7d') :: X), ?_⟩
    simp [print_obj]

lemma skip_ws_fields_head (kv : String × String) (tl : List (String × String))
    (X : List Char) :
    ∃ Y, skip_ws (('\n') :: print_fields (kv :: tl) ++ X) = ('"') :: Y := by
  cases tl with
  | nil =>
    refine ⟨escape_string kv.1.toList ++ ('"') ::
      ((':') :: (' ') :: (print_string kv.2 ++ X)), ?_⟩
    simp [print_fields, print_field, print_string, skip_ws, json_ws,
      List.append_assoc]
  | cons kv2 tl2 =>
    refine ⟨escape_string kv.1.toList ++ ('"') ::
      ((':') :: (' ') :: (print_string kv.2 ++
        ((',') :: ('\n') :: (print_fields (kv2 :: tl2) ++ X)))), ?_⟩
    simp [print_fields, print_field, print_string, skip_ws, json_ws,
      List.append_assoc]

lemma parse_object_print (fields : List (String × String)) (fuel : Nat)
    (rest : List Char) (hf : fields.length ≤ fuel) :
    parse_object fuel (print_obj fields ++ rest) =
      some (to_char_pairs fields, rest) := by
  cases fields with
  | nil =>
    simp [print_obj, parse_object, skip_ws_lbrace, skip_ws_rbrace, to_char_pairs]
  | cons kv tl =>
    have hshape : print_obj (kv :: tl) ++ rest = ('\x7b') ::
        (('\n') :: print_fields (kv :: tl) ++
          ('\n') :: (' ') :: (' ') :: ('\x7d') :: rest) := by
      simp [print_obj]
    rw [hshape]
    obtain ⟨Y, hY⟩ := skip_ws_fields_head kv tl
      (('\n') :: (' ') :: (' ') :: ('\x7d') :: rest)
    rw [show ('\n') :: print_fields (kv :: tl) ++
      ('\n') :: (' ') :: (' ') :: ('\x7d') :: rest =
      ('\n') :: (print_fields (kv :: tl) ++
      ('\n') :: (' ') :: (' ') :: ('\x7d') :: rest) by simp] at hY ⊢
    simp only [parse_object, skip_ws_lbrace, hY]
    rw [if_pos trivial, if_neg (by decide)]
    exact parse_members_print (kv :: tl) fuel rest (by simp) hf

lemma parse_object_skip_nl (fuel : Nat) (l : List Char) :
    parse_object fuel (('\n') :: l) = parse_object fuel l := by
  simp only [parse_object, skip_ws_nl]

lemma parse_object_skip_sp (fuel : Nat) (l : List Char) :
    parse_object fuel ((' ') :: l) = parse_object fuel l := by
  simp only [parse_object, skip_ws_sp]

lemma parse_elements_print (objs : List (List (String × String))) :
    ∀ fuel rest, objs ≠ [] → (∀ o ∈ objs, o.length + objs.length ≤ fuel) →
    parse_elements fuel (('\n') :: print_elements objs ++ ('\n') :: (']') :: rest) =
      some (objs.map to_char_pairs, rest) := by
  induction objs with
  | nil => intro fuel rest h _; exact absurd rfl h
  | cons o tl ih =>
    intro fuel rest _ hfuel
    have h0 := hfuel o (List.mem_cons_self o tl)
    simp only [List.length_cons] at h0
    cases fuel with
    | zero => omega
    | succ f =>
      cases tl with
      | nil =>
        have hobj := parse_object_print o f (('\n') :: (']') :: rest) (by omega)
        simp only [print_elements, List.cons_append, List.append_assoc,
          parse_elements, parse_object_skip_nl, parse_object_skip_sp, hobj,
          skip_ws_nl, skip_ws_rbracket, List.map]
        simp
      | cons o2 tl2 =>
        have ihx := ih f rest (by simp) (by
          intro o3 h3
          have := hfuel o3 (List.mem_cons_of_mem o h3)
          simp only [List.length_cons] at this ⊢
          omega)
        simp only [List.cons_append, List.append_assoc] at ihx
        have hobj := parse_object_print o f
          ((',') :: ('\n') :: (print_elements (o2 :: tl2) ++
            ('\n') :: (']') :: rest)) (by omega)
        simp only [print_elements, List.cons_append, List.append_assoc,
          parse_elements, parse_object_skip_nl, parse_object_skip_sp, hobj,
          skip_ws_comma, ihx, List.map]
        simp

lemma skip_ws_print_obj_aux (o : List (String × String)) (X : List Char) :
    skip_ws (print_obj o ++ X) = print_obj o ++ X := by
  obtain ⟨Z, hZ⟩ := print_obj_head o X
  rw [hZ, skip_ws_lbrace]

lemma parse_array_print (objs : List (List (String × String))) (fuel : Nat)
    (rest : List Char) (hne : objs ≠ [])
    (hfuel : ∀ o ∈ objs, o.length + objs.length ≤ fuel) :
    parse_array fuel (print_array objs ++ rest) =
      some (objs.map to_char_pairs, rest) := by
  cases objs with
  | nil => exact absurd rfl hne
  | cons o tl =>
    have hshape : print_array (o :: tl) ++ rest = ('[') ::
        (('\n') :: (print_elements (o :: tl) ++ ('\n') :: (']') :: rest)) := by
      simp [print_array]
    rw [hshape]
    have hhead : ∃ Z, skip_ws (('\n') :: (print_elements (o :: tl) ++
        ('\n') :: (']') :: rest)) = ('\x7b') :: Z := by
      rw [skip_ws_nl]
      cases tl with
      | nil =>
        rw [show print_elements [o] ++ ('\n') :: (']') :: rest =
          (' ') :: ((' ') :: (print_obj o ++ (('\n') :: (']') :: rest))) by
            simp [print_elements]]
        rw [skip_ws_sp, skip_ws_sp, skip_ws_print_obj_aux]
        exact print_obj_head o _
      | cons o2 tl2 =>
        rw [show print_elements (o :: o2 :: tl2) ++ ('\n') :: (']') :: rest =
          (' ') :: ((' ') :: (print_obj o ++ ((',') :: ('\n') ::
            (print_elements (o2 :: tl2) ++ ('\n') :: (']') :: rest)))) by
            simp [print_elements]]
        rw [skip_ws_sp, skip_ws_sp, skip_ws_print_obj_aux]
        exact print_obj_head o _
    obtain ⟨Z, hZ⟩ := hhead
    simp only [parse_array, skip_ws_lbracket, hZ]
    rw [if_pos trivial, if_neg (by decide)]
    exact parse_elements_print (o :: tl) fuel rest (by simp) hfuel

lemma to_char_pairs_back (o : List (String × String)) :
    (to_char_pairs o).map (fun kv => (String.mk kv.1, String.mk kv.2)) = o := by
  induction o with
  | nil => rfl
  | cons kv tl ih =>
    simp only [to_char_pairs, List.map_cons] at *
    rw [ih]
    exact congrArg (fun p => p :: tl) rfl

lemma chars_objs_back (objs : List (List (String × String))) :
    (objs.map to_char_pairs).map
      (fun o => o.map (fun kv => (String.mk kv.1, String.mk kv.2))) = objs := by
  induction objs with
  | nil => rfl
  | cons o tl ih =>
    simp only [List.map_cons]
    rw [to_char_pairs_back, ih]

lemma length_print_elements (objs : List (List (String × String))) :
    objs.length ≤ (print_elements objs).length := by
  induction objs with
  | nil => simp [print_elements]
  | cons o tl ih =>
    cases tl with
    | nil => simp [print_elements]
    | cons o2 tl2 =>
      simp only [print_elements, List.length_cons, List.length_append] at *
      omega

/-- C8: rendering a non-empty session list in the json format and parsing
the output back yields, in the same order, one object per session carrying
exactly the ten `asdict` fields with the original values. -/
theorem sessions_json_round_trip (sessions : List Session) (hne : sessions ≠ []) :
    parse_sessions_json (sessions_json sessions) = some (sessions.map asdict) := by
  have hobjs : sessions.map asdict ≠ [] := by simpa using hne
  have hlen : sessions.length ≤ (print_elements (sessions.map asdict)).length := by
    have := length_print_elements (sessions.map asdict)
    simpa using this
  have hfour : (print_array (sessions.map asdict)).length =
      (print_elements (sessions.map asdict)).length + 4 := by
    rcases sessions with _ | ⟨s0, tl⟩
    · exact absurd rfl hne
    · simp [print_array]
  have hfu : ∀ o ∈ sessions.map asdict,
      o.length + (sessions.map asdict).length ≤
        (print_array (sessions.map asdict)).length + 12 := by
    intro o ho
    rcases List.mem_map.1 ho with ⟨s, _, rfl⟩
    simp only [asdict, List.length_cons, List.length_nil, List.length_map]
    omega
  have harr := parse_array_print (sessions.map asdict)
    ((print_array (sessions.map asdict)).length + 12) [] hobjs hfu
  rw [List.append_nil] at harr
  unfold sessions_json parse_sessions_json
  rw [show (String.mk (print_array (sessions.map asdict))).toList =
    print_array (sessions.map asdict) from rfl]
  rw [show (String.mk (print_array (sessions.map asdict))).length =
    (print_array (sessions.map asdict)).length from rfl]
  rw [harr]
  simp only [skip_ws, List.dropWhile_nil, List.isEmpty_nil, if_true]
  rw [chars_objs_back]

/-- C8 (witness): the demo session round-trips. -/
theorem sessions_json_round_trip_witness :
    ([default_session] ≠ ([] : List Session)) ∧
    parse_sessions_json (sessions_json [default_session]) =
      some ([default_session].map asdict) :=
  ⟨by simp, sessions_json_round_trip [default_session] (by simp)⟩

/-- The observable result of the watcher's checker-subprocess invocation:
either a failure (non-zero exit, OS error) or captured stdout. -/
inductive CheckOutcome where
  | fail : CheckOutcome
  | ok : String → CheckOutcome
deriving DecidableEq

/-- `run_check()`: an empty list on subprocess failure; otherwise
`json.loads(result.stdout or "[]")`, with an empty list on a decode
error (modelled with the session-array JSON grammar the checker emits). -/
def run_check : CheckOutcome → List (List (String × String))
  | CheckOutcome.fail => []
  | CheckOutcome.ok out =>
    match parse_sessions_json (if out = "" then "[]" else out) with
    | some v => v
    | none => []

/-- Python `s.get(key)` on a parsed object (keys are unique in the
checker's output). -/
def dict_get (d : List (String × String)) (k : String) : Option String :=
  (d.find? (fun kv => kv.1 == k)).map (fun kv => kv.2)

/-- The watcher cycle's filter: entries whose availability is "available". -/
def cycle_available (o : CheckOutcome) : List (List (String × String)) :=
  (run_check o).filter
    (fun s => dict_get s ("availability") == some ("available"))

/-- Whether the cycle issues the notification POST (`if available:`). -/
def cycle_notifies (o : CheckOutcome) : Bool :=
  !(cycle_available o).isEmpty

/-- C9: a watcher cycle treats a failed subprocess or undecodable stdout as
an empty session list, and it POSTs a notification exactly when at least
one parsed entry has availability "available"; in particular an emitted
`[]` produces no notification. -/
theorem watcher_cycle_spec (o : CheckOutcome) :
    (o = CheckOutcome.fail → run_check o = []) ∧
    (∀ out, o = CheckOutcome.ok out →
      parse_sessions_json (if out = "" then "[]" else out) = none →
      run_check o = []) ∧
    (cycle_notifies o = true ↔
      ∃ s ∈ run_check o, dict_get s ("availability") = some ("available")) ∧
    (o = CheckOutcome.ok ("[]") → cycle_notifies o = false) := by
  refine ⟨?_, ?_, ?_, ?_⟩
  · rintro rfl; rfl
  · rintro out rfl h
    simp [run_check, h]
  · constructor
    · intro h
      have hne : cycle_available o ≠ [] := by
        intro hcontra
        rw [cycle_notifies, hcontra] at h
        simp at h
      obtain ⟨s, hs⟩ := List.exists_mem_of_ne_nil _ hne
      have hs2 := List.mem_filter.1 hs
      refine ⟨s, hs2.1, ?_⟩
      have := hs2.2
      simpa using this
    · rintro ⟨s, hs, hav⟩
      have hmem : s ∈ cycle_available o := by
        rw [cycle_available]
        exact List.mem_filter.2 ⟨hs, by simp [hav]⟩
      rw [cycle_notifies]
      rcases hcav : cycle_available o with _ | ⟨x, xs⟩
      · rw [hcav] at hmem; cases hmem
      · simp
  · rintro rfl
    rfl

/-- C9 (witness): a failed subprocess yields no sessions, and an emitted
`[]` sends no notification. -/
theorem watcher_cycle_spec_witness :
    run_check CheckOutcome.fail = [] ∧
    cycle_notifies (CheckOutcome.ok ("[]")) = false :=
  ⟨(watcher_cycle_spec CheckOutcome.fail).1 rfl,
   (watcher_cycle_spec (CheckOutcome.ok ("[]"))).2.2.2 rfl⟩

end INLL
